import Mathlib

/-!
Verification of the generate-verify-refine testbench agent.

This file gives a shallow embedding, in Lean 4, of the core logic of the
repository: the interface extractor and feature classifier
(`utils/port_extractor.py`), the artifact sanitizer
(`utils/code_generator.py`), the diagnostic classifier and feedback
synthesizer (`templates/error_fixes.py`), the verification driver
(`rtl_runner.py`), and the refinement orchestrator
(`test_simulation_agent.py`).  Text is modelled as `List Char`; the
Python regular expressions used by the source are embedded as explicit
scanners with the same leftmost, non-overlapping match semantics
(all quantifiers in the source patterns sit at boundaries between
disjoint character classes, so greedy matching never backtracks and the
scanners below are exact).  External effects (the LLM call, the
Verilator subprocess, the filesystem) are modelled as oracle inputs.
-/

namespace TbAgent

/-- Python `\s` (whitespace) on the ASCII range used by the sources. -/
def isSpaceCh (c : Char) : Bool :=
  c = ' ' || c = '\t' || c = '\n' || c = '\r' || c = '\x0b' || c = '\x0c'

/-- Python `\d`. -/
def isDigitCh (c : Char) : Bool := '0' ≤ c && c ≤ '9'

/-- Python `\w` (restricted to ASCII, which is all the sources use). -/
def isWordCh (c : Char) : Bool :=
  ('a' ≤ c && c ≤ 'z') || ('A' ≤ c && c ≤ 'Z') || isDigitCh c || c = '_'

/-- Match a literal at the head of the text; return the rest. -/
def lexLit (pat s : List Char) : Option (List Char) :=
  if pat.isPrefixOf s then some (s.drop pat.length) else none

/-- `\s+` (greedy; the source patterns always follow it with a
non-whitespace token, so greedy = maximal run). -/
def spaces1 : List Char → Option (List Char)
  | [] => none
  | c :: r => if isSpaceCh c then some (r.dropWhile isSpaceCh) else none

/-- `(\d+)` (greedy maximal run, at least one digit). -/
def digits1 (s : List Char) : Option (List Char × List Char) :=
  let ds := s.takeWhile isDigitCh
  if ds = [] then none else some (ds, s.drop ds.length)

/-- `(\w+)` (greedy maximal run, at least one word character). -/
def word1 (s : List Char) : Option (List Char × List Char) :=
  let ws := s.takeWhile isWordCh
  if ws = [] then none else some (ws, s.drop ws.length)

/-- `re.finditer`: scan left to right, try the matcher at every
position, and on a match continue right after it (non-overlapping).
The fuel argument bounds the recursion; every matcher used in this file
consumes at least one character on success, so `length + 1` fuel is
always enough. -/
def scanFuel (m : List Char → Option (α × List Char)) :
    Nat → List Char → List α
  | 0, _ => []
  | _ + 1, [] => []
  | fuel + 1, c :: rest =>
    match m (c :: rest) with
    | some (a, suf) => a :: scanFuel m fuel suf
    | none => scanFuel m fuel rest

/-- All matches of a pattern in `content`, in textual order. -/
def runPattern (m : List Char → Option (α × List Char))
    (content : List Char) : List α :=
  scanFuel m (content.length + 1) content

/-- `re.search`: leftmost match, or `none`. -/
def searchFirst (m : List Char → Option α) : List Char → Option α
  | [] => m []
  | c :: r =>
    match m (c :: r) with
    | some a => some a
    | none => searchFirst m r

/-- A port entry `(name, width)` exactly as the Python code stores it:
the width is a string such as `[7:0]`, or empty for a single bit. -/
abbrev PortEntry := List Char × List Char

/-- Result of `extract_dut_ports` (`utils/port_extractor.py`). -/
structure DutPorts where
  module_name : List Char
  inputs : List PortEntry
  outputs : List PortEntry
  deriving DecidableEq, Repr

def kInput : List Char := "input".toList
def kOutput : List Char := "output".toList
def kWire : List Char := "wire".toList
def kReg : List Char := "reg".toList
def kModule : List Char := "module".toList

/-- One ranged declaration pattern,
`dir\s+st\s+\[(\d+):(\d+)\]\s+(\w+)`, applied at the head of the text;
yields the Python loop body's `(name, "[hi:lo]")` entry. -/
def matchRangedDecl (dir st : List Char) (s : List Char) :
    Option (PortEntry × List Char) := do
  let s ← lexLit dir s
  let s ← spaces1 s
  let s ← lexLit st s
  let s ← spaces1 s
  let s ← lexLit ['['] s
  let (hi, s) ← digits1 s
  let s ← lexLit [':'] s
  let (lo, s) ← digits1 s
  let s ← lexLit [']'] s
  let s ← spaces1 s
  let (nm, s) ← word1 s
  pure ((nm, '[' :: (hi ++ ':' :: (lo ++ [']']))), s)

/-- One plain declaration pattern, `dir\s+st\s+(\w+)`, applied at the
head of the text; yields the Python loop body's `(name, "")` entry. -/
def matchPlainDecl (dir st : List Char) (s : List Char) :
    Option (PortEntry × List Char) := do
  let s ← lexLit dir s
  let s ← spaces1 s
  let s ← lexLit st s
  let s ← spaces1 s
  let (nm, s) ← word1 s
  pure ((nm, []), s)

/-- The `input_patterns` list of `extract_dut_ports`, in source order:
ranged wire, plain wire, ranged reg, plain reg. -/
def inputMatchers : List (List Char → Option (PortEntry × List Char)) :=
  [matchRangedDecl kInput kWire, matchPlainDecl kInput kWire,
   matchRangedDecl kInput kReg, matchPlainDecl kInput kReg]

/-- The `output_patterns` list, in source order. -/
def outputMatchers : List (List Char → Option (PortEntry × List Char)) :=
  [matchRangedDecl kOutput kWire, matchPlainDecl kOutput kWire,
   matchRangedDecl kOutput kReg, matchPlainDecl kOutput kReg]

/-- `re.search(r'module\s+(\w+)', content)`. -/
def matchModuleName (s : List Char) : Option (List Char) := do
  let s ← lexLit kModule s
  let s ← spaces1 s
  let (nm, _) ← word1 s
  pure nm

def searchModuleName (content : List Char) : Option (List Char) :=
  searchFirst matchModuleName content

/-- `extract_dut_ports` (`utils/port_extractor.py`).  The filesystem is
modelled by the `fileExists` flag together with the file's `content`:
a missing file short-circuits to the default descriptor.  The port
lists are accumulated pattern by pattern, each pattern scanned over the
whole text, exactly as the Python `for pattern ... for match ...`
nesting does. -/
def extract_dut_ports (fileExists : Bool) (content : List Char) : DutPorts :=
  if fileExists then
    { module_name :=
        match searchModuleName content with
        | some nm => nm
        | none => "my_dut".toList
      inputs := inputMatchers.foldl (fun acc m => acc ++ runPattern m content) []
      outputs := outputMatchers.foldl (fun acc m => acc ++ runPattern m content) [] }
  else
    { module_name := "my_dut".toList, inputs := [], outputs := [] }

/- `format_port_info` and prompt construction are presentation only and
are not needed by any claim; they are omitted. -/

/-- Feature flags computed by `detect_port_features`
(`utils/port_extractor.py`). -/
structure PortFeatures where
  has_clk : Bool
  has_rst : Bool
  has_multibit : Bool
  max_width : Nat
  num_inputs : Nat
  num_outputs : Nat
  deriving DecidableEq, Repr

/-- `int(...)` on a digit run. -/
def natOfDigits (ds : List Char) : Nat :=
  ds.foldl (fun a c => a * 10 + (c.toNat - 48)) 0

/-- `re.search(r'\[(\d+):', width)` applied at the head of the text. -/
def matchWidthHigh : List Char → Option Nat
  | '[' :: r =>
    match digits1 r with
    | some (ds, rest) =>
      match rest with
      | ':' :: _ => some (natOfDigits ds)
      | _ => none
    | none => none
  | _ => none

/-- Leftmost `\[(\d+):` match in a width string. -/
def searchWidthHigh (w : List Char) : Option Nat :=
  searchFirst matchWidthHigh w

/-- Python `str.lower` on the ASCII names used here, character-wise. -/
def lowerAll (s : List Char) : List Char := s.map Char.toLower

/-- Loop body of the clock/reset scan in `detect_port_features`: two
independent `if` updates per input port. -/
def clkRstStep (f : PortFeatures) (nw : PortEntry) : PortFeatures :=
  let f := if lowerAll nw.1 = "clk".toList ∨ lowerAll nw.1 = "clock".toList then
      { f with has_clk := true } else f
  if lowerAll nw.1 = "rst".toList ∨ lowerAll nw.1 = "reset".toList then
    { f with has_rst := true } else f

/-- Loop body of the multi-bit scan in `detect_port_features`. -/
def multibitStep (f : PortFeatures) (nw : PortEntry) : PortFeatures :=
  if nw.2 ≠ [] then
    let f := { f with has_multibit := true }
    match searchWidthHigh nw.2 with
    | some h => { f with max_width := max f.max_width (h + 1) }
    | none => f
  else f

/-- `detect_port_features` (`utils/port_extractor.py`). -/
def detect_port_features (ports : DutPorts) : PortFeatures :=
  let f0 : PortFeatures :=
    { has_clk := false, has_rst := false, has_multibit := false,
      max_width := 0, num_inputs := ports.inputs.length,
      num_outputs := ports.outputs.length }
  let f1 := ports.inputs.foldl clkRstStep f0
  (ports.inputs ++ ports.outputs).foldl multibitStep f1

/-- `re.sub(lit + r'\n?', '', code)` for a literal `lit`: a single
left-to-right pass, removing each occurrence of the literal together
with one following newline when present (the greedy `\n?`), never
rescanning replaced text — exactly `re.sub`'s semantics for such a
pattern.  The fuel argument bounds the recursion; each step consumes at
least one character for the nonempty literals used here, so
`length + 1` fuel is always enough. -/
def subLitNl (pat : List Char) : Nat → List Char → List Char
  | _, [] => []
  | 0, s => s
  | fuel + 1, c :: rest =>
    if pat.isPrefixOf (c :: rest) then
      let r := (c :: rest).drop pat.length
      if r.head? = some '\n' then subLitNl pat fuel r.tail
      else subLitNl pat fuel r
    else c :: subLitNl pat fuel rest

/-- `re.sub(r'```verilog\n?', '', code)`. -/
def subVer (s : List Char) : List Char :=
  subLitNl "```verilog".toList (s.length + 1) s

/-- `re.sub(r'```systemverilog\n?', '', code)`. -/
def subSysVer (s : List Char) : List Char :=
  subLitNl "```systemverilog".toList (s.length + 1) s

/-- `re.sub(r'```\n?', '', code)`. -/
def subTick : List Char → List Char
  | '`' :: '`' :: '`' :: '\n' :: rest => subTick rest
  | '`' :: '`' :: '`' :: rest => subTick rest
  | c :: rest => c :: subTick rest
  | [] => []

/-- The three fence-stripping passes of `sanitize_verilog_code`, in
source order. -/
def stripFences (s : List Char) : List Char := subTick (subSysVer (subVer s))

/-- Python `str.find`: index of the leftmost occurrence of `pat` as a
substring, `None` when absent (Python's `-1`). -/
def findSub (pat : List Char) : List Char → Option Nat
  | [] => if pat.isPrefixOf ([] : List Char) then some 0 else none
  | c :: r =>
    if pat.isPrefixOf (c :: r) then some 0 else (findSub pat r).map (· + 1)

/-- `"PINMISSING" in s`, and friends: Python substring containment. -/
def containsSub (pat s : List Char) : Bool := (findSub pat s).isSome

/-- A triple-backtick fence delimiter. -/
def tick3 : List Char := ['`', '`', '`']

/-- Does the text contain a triple-backtick fence delimiter? -/
def containsTicks (s : List Char) : Bool := containsSub tick3 s

/-- Python `str.rfind`: index of the rightmost occurrence. -/
def rfindSub (pat : List Char) : List Char → Option Nat
  | [] => if pat.isPrefixOf ([] : List Char) then some 0 else none
  | c :: r =>
    match rfindSub pat r with
    | some i => some (i + 1)
    | none => if pat.isPrefixOf (c :: r) then some 0 else none

def kEndmodule : List Char := "endmodule".toList

/-- `if not clean_code.endswith('\n'): clean_code += '\n'`. -/
def ensureNl (l : List Char) : List Char :=
  if l.getLast? = some '\n' then l else l ++ ['\n']

/-- The fixed part of the `RuntimeError` message raised by
`sanitize_verilog_code`. -/
def sanitizePreamble : List Char :=
  "No valid Verilog module found in output.\nOutput preview:\n".toList

/-- `sanitize_verilog_code` (`utils/code_generator.py`): strip fences,
find the first `module` and the last `endmodule`, fail with the first
200 characters of the raw input if either is absent, otherwise slice
inclusively (`code[start:end + len("endmodule")]`, which for `start`
and `stop` both in range is `take (stop - start) ∘ drop start`, the
Nat-truncated subtraction giving Python's empty slice when
`stop ≤ start`) and ensure a trailing newline. -/
def sanitize_verilog_code (raw : List Char) : Except (List Char) (List Char) :=
  let code := stripFences raw
  match findSub kModule code, rfindSub kEndmodule code with
  | some s, some e =>
    Except.ok (ensureNl ((code.drop s).take (e + kEndmodule.length - s)))
  | some _, none => Except.error (sanitizePreamble ++ raw.take 200)
  | none, _ => Except.error (sanitizePreamble ++ raw.take 200)

/-- The three modes of `rtl_runner.py` (`Mode` literal type). -/
inductive Mode where
  | compile_only
  | compile_elaborate
  | full_sim
  deriving DecidableEq, Repr

/-- The four checks of the Verification Driver. -/
inductive Step where
  | compile_dut
  | elaborate_dut
  | compile_tb
  | run_simulation
  deriving DecidableEq, Repr

def stepName : Step → String
  | .compile_dut => "compile_dut"
  | .elaborate_dut => "elaborate_dut"
  | .compile_tb => "compile_tb"
  | .run_simulation => "run_simulation"

/-- The per-step result dict produced by `_run_cmd` (or synthesized for
a missing file): only the fields the driver logic and the claims read
are modelled.  The behavior of each check (the Verilator subprocess,
plus the file-existence short-circuits that synthesize `returncode 1`)
is an oracle supplied as a function `Step → StepResult`. -/
structure StepResult where
  returncode : Int
  stdout : List Char
  stderr : List Char
  deriving DecidableEq, Repr

/-- `RTLRunner.run_flow` (`rtl_runner.py`): the literal nested-`if`
sequencing, accumulating `results` in insertion order like the Python
dict does. -/
def run_flow (mode : Mode) (res : Step → StepResult) :
    Bool × String × List (String × StepResult) :=
  let r1 := res .compile_dut
  let acc1 := [("compile_dut", r1)]
  if r1.returncode ≠ 0 then (false, "compile_dut", acc1)
  else
    match mode with
    | .compile_only =>
      let r2 := res .compile_tb
      let acc2 := acc1 ++ [("compile_tb", r2)]
      if r2.returncode ≠ 0 then (false, "compile_tb", acc2)
      else (true, "ok", acc2)
    | .compile_elaborate =>
      let r2 := res .elaborate_dut
      let acc2 := acc1 ++ [("elaborate_dut", r2)]
      if r2.returncode ≠ 0 then (false, "elaborate_dut", acc2)
      else
        let r3 := res .compile_tb
        let acc3 := acc2 ++ [("compile_tb", r3)]
        if r3.returncode ≠ 0 then (false, "compile_tb", acc3)
        else (true, "ok", acc3)
    | .full_sim =>
      let r2 := res .elaborate_dut
      let acc2 := acc1 ++ [("elaborate_dut", r2)]
      if r2.returncode ≠ 0 then (false, "elaborate_dut", acc2)
      else
        let r3 := res .compile_tb
        let acc3 := acc2 ++ [("compile_tb", r3)]
        if r3.returncode ≠ 0 then (false, "compile_tb", acc3)
        else
          let r4 := res .run_simulation
          let acc4 := acc3 ++ [("run_simulation", r4)]
          if r4.returncode ≠ 0 then (false, "run_simulation", acc4)
          else (true, "ok", acc4)

/-- Modelled from the spec: the ordered check list each mode
prescribes (spec §4.6: `compile_only` runs {StructuralCompile,
HarnessCompile}; `compile_elaborate` additionally runs Elaborate
between them; `full` runs all four). -/
def checksOf : Mode → List Step
  | .compile_only => [.compile_dut, .compile_tb]
  | .compile_elaborate => [.compile_dut, .elaborate_dut, .compile_tb]
  | .full_sim => [.compile_dut, .elaborate_dut, .compile_tb, .run_simulation]

/-- Modelled from the spec: the fail-fast reference driver.  It runs
the given checks in order; the first nonzero exit status halts the
sequence immediately (later checks are never invoked) and it returns
the failing check's name together with the results of every check
invoked so far, the earlier passing ones included. -/
def runChecksSpec (checks : List Step) (res : Step → StepResult) :
    Bool × String × List (String × StepResult) :=
  match checks with
  | [] => (true, "ok", [])
  | s :: rest =>
    let r := res s
    if r.returncode ≠ 0 then (false, stepName s, [(stepName s, r)])
    else
      let t := runChecksSpec rest res
      (t.1, t.2.1, (stepName s, r) :: t.2.2)

/-- The claim-relevant projection of what `run_with_refinement`
(`test_simulation_agent.py`) returns and logs: the returned 5-tuple's
success flag, failing step, results and iteration count, together with
the run log's `final_status`, the number of generation attempts
performed, and the `iteration_number` recorded for each appended
iteration log (the analysis text is presentation only and omitted). -/
structure RunResult where
  success : Bool
  failing_step : String
  results : List (String × StepResult)
  iterations_used : Nat
  final_status : String
  gen_attempts : Nat
  iter_numbers : List Nat
  deriving DecidableEq, Repr

/-- The body of `for iteration in range(max_iterations)` in
`run_with_refinement`.  `gen i` is the outcome of `generate_testbench`
at iteration `i` (the LLM call is an oracle; an `error` is the
exception path), `verify i` the `(success, failing_step, results)`
triple `runner.run_flow(mode)` produces at iteration `i`.  The `last`
argument carries the previous iteration's flow triple, which the
Python code reads after the loop ends (`none` models the
`max_iterations = 0` case, where the Python would hit an unbound local
variable). -/
def refineGo (maxIter : Nat) (gen : Nat → Except (List Char) Unit)
    (verify : Nat → Bool × String × List (String × StepResult)) :
    Nat → Nat → List Nat → Nat →
    Option (Bool × String × List (String × StepResult)) → RunResult
  | _, 0, logNums, genCount, last =>
    { success := false
      failing_step := (match last with | some f => f.2.1 | none => "")
      results := (match last with | some f => f.2.2 | none => [])
      iterations_used := maxIter
      final_status := "max_iterations_reached"
      gen_attempts := genCount
      iter_numbers := logNums }
  | iter, r + 1, logNums, genCount, _ =>
    match gen iter with
    | .error _ =>
      { success := false, failing_step := "testbench_generation", results := [],
        iterations_used := iter + 1, final_status := "generation_failed",
        gen_attempts := genCount + 1, iter_numbers := logNums ++ [iter] }
    | .ok _ =>
      let f := verify iter
      if f.1 then
        { success := true, failing_step := "ok", results := f.2.2,
          iterations_used := iter + 1, final_status := "success",
          gen_attempts := genCount + 1, iter_numbers := logNums ++ [iter] }
      else
        refineGo maxIter gen verify (iter + 1) r (logNums ++ [iter])
          (genCount + 1) (some f)

/-- `run_with_refinement` (`test_simulation_agent.py`). -/
def run_with_refinement (maxIter : Nat)
    (gen : Nat → Except (List Char) Unit)
    (verify : Nat → Bool × String × List (String × StepResult)) : RunResult :=
  refineGo maxIter gen verify 0 maxIter [] 0 none

/-- The sanitize-and-reraise tail of `generate_testbench`: iteration
`i`'s generation succeeds exactly when `sanitize_verilog_code` accepts
the raw LLM output `llm i`, and the raised error is the sanitizer's
message.  (Prompt construction and the write of the testbench file do
not affect the success of the call.) -/
def genFromLlm (llm : Nat → List Char) (i : Nat) : Except (List Char) Unit :=
  match sanitize_verilog_code (llm i) with
  | .ok _ => Except.ok ()
  | .error e => Except.error e

/-- Python `str.split('\n')` (keeps empty segments). -/
def splitNl : List Char → List (List Char)
  | [] => [[]]
  | '\n' :: r => [] :: splitNl r
  | c :: r =>
    match splitNl r with
    | h :: t => (c :: h) :: t
    | [] => [[c]]

/-- `re.search(r"missing pin: '(\w+)'", line)` applied at the head. -/
def matchPinName (s : List Char) : Option (List Char) := do
  let s ← lexLit "missing pin: '".toList s
  let (w, s) ← word1 s
  match s with
  | '\'' :: _ => pure w
  | _ => none

/-- `parse_pinmissing_error` (`templates/error_fixes.py`): one search
per line, collecting the quoted pin names. -/
def parse_pinmissing_error (error_text : List Char) : List (List Char) :=
  (splitNl error_text).filterMap (searchFirst matchPinName)

/-- `re.search(r"port '(\w+)'", error_text)` applied at the head. -/
def matchPortName (s : List Char) : Option (List Char) := do
  let s ← lexLit "port '".toList s
  let (w, s) ← word1 s
  match s with
  | '\'' :: _ => pure w
  | _ => none

/-- The trailing `(\d+) bits` of the width pattern, applied at the
head. -/
def matchSecondBits (s : List Char) : Option (List Char) := do
  let (d2, s) ← digits1 s
  let _ ← lexLit " bits".toList s
  pure d2

/-- The `.+?` of `(\d+) bits.+?(\d+) bits`: consume one or more
non-newline characters (lazily, shortest first — `.` does not match a
newline) until `(\d+) bits` matches. -/
def seekSecondBits : List Char → Option (List Char)
  | [] => none
  | c :: r =>
    if c = '\n' then none
    else
      match matchSecondBits r with
      | some d2 => some d2
      | none => seekSecondBits r

/-- `re.search(r'(\d+) bits.+?(\d+) bits', error_text)` applied at the
head: both digit runs are maximal (each is followed by a space, so the
greedy `\d+` never backtracks). -/
def matchWidthPair (s : List Char) : Option (List Char × List Char) := do
  let (d1, s) ← digits1 s
  let s ← lexLit " bits".toList s
  let d2 ← seekSecondBits s
  pure (d1, d2)

/-- The dict built by `parse_width_error`: the `port` key and the two
width keys (the source sets the two width keys together or not at
all). -/
structure WidthInfo where
  port : Option (List Char)
  expected_width : Option (List Char)
  actual_width : Option (List Char)
  deriving DecidableEq, Repr

/-- `parse_width_error` (`templates/error_fixes.py`). -/
def parse_width_error (error_text : List Char) : WidthInfo :=
  let port := searchFirst matchPortName error_text
  match searchFirst matchWidthPair error_text with
  | some (e, a) =>
    { port := port, expected_width := some e, actual_width := some a }
  | none => { port := port, expected_width := none, actual_width := none }

/-- The first-match port-width lookup loop of
`generate_targeted_error_prompt` (initial value `""`, `break` on the
first name match). -/
def lookupWidth (port_name : List Char) : List PortEntry → List Char
  | [] => []
  | (n, w) :: rest => if n = port_name then w else lookupWidth port_name rest

/-- Python `sep.join(pieces)`. -/
def joinSep (sep : List Char) : List (List Char) → List Char
  | [] => []
  | [x] => x
  | x :: y :: rest => x ++ sep ++ joinSep sep (y :: rest)

/-- One `        .{name}({name})` connection line. -/
def connLine (nw : PortEntry) : List Char :=
  "        .".toList ++ nw.1 ++ "(".toList ++ nw.1 ++ ")".toList

/- The template texts of `ERROR_FIX_TEMPLATES`, one definition per
template used by `generate_targeted_error_prompt`.  Each call in the
source supplies every placeholder its template mentions, so
`template.format(**kwargs)` never raises and equals the splice below;
the two `Raw` forms are the unformatted dict entries the source also
uses directly. -/

def hbar : List Char := List.replicate 64 '═'

def pinmissingFix (port module_name port_connections : List Char) : List Char :=
  ("\n╔").toList
    ++ hbar
    ++ ("╗\n║ CRITICAL ERROR: Missing Port Connection                       ║\n╚").toList
    ++ hbar
    ++ ("╝\n\nYou forgot to connect port '").toList
    ++ port
    ++ ("'.\n\nREQUIRED FIX:\nIn your DUT instantiation, you MUST have this line:\n    .").toList
    ++ port
    ++ ("(").toList
    ++ port
    ++ (")\n\nComplete instantiation template (COPY THIS):\n").toList
    ++ module_name
    ++ (" dut (\n").toList
    ++ port_connections
    ++ ("\n);\n\nEvery line above MUST appear in your testbench.\n").toList

def widthtruncFix (port expected_width actual_width correct_declaration : List Char) : List Char :=
  ("\n╔").toList
    ++ hbar
    ++ ("╗\n║ CRITICAL ERROR: Bit Width Mismatch                            ║\n╚").toList
    ++ hbar
    ++ ("╝\n\nWrong bit width for port '").toList
    ++ port
    ++ ("'.\n\nPort expects: ").toList
    ++ expected_width
    ++ ("\nYou provided: ").toList
    ++ actual_width
    ++ ("\n\nREQUIRED FIX:\nDeclare the signal correctly:\n    ").toList
    ++ correct_declaration
    ++ ("\n\nExamples:\n  Single bit:  reg signal;\n  8-bit:       reg [7:0] signal;\n  4-bit:       reg [3:0] signal;\n").toList

def moduleNotFoundFix (module correct_module_name : List Char) : List Char :=
  ("\n╔").toList
    ++ hbar
    ++ ("╗\n║ CRITICAL ERROR: Module Not Found                              ║\n╚").toList
    ++ hbar
    ++ ("╝\n\nVerilator cannot find module '").toList
    ++ module
    ++ ("'.\n\nCOMMON CAUSES:\n1. Typo in module name\n2. Module name doesn't match file\n\nREQUIRED FIX:\nUse the EXACT module name from DUT: ").toList
    ++ correct_module_name
    ++ ("\n").toList

def widthtruncRaw : List Char :=
  ("\n╔").toList
    ++ hbar
    ++ ("╗\n║ CRITICAL ERROR: Bit Width Mismatch                            ║\n╚").toList
    ++ hbar
    ++ ("╝\n\nWrong bit width for port '\x7bport\x7d'.\n\nPort expects: \x7bexpected_width\x7d\nYou provided: \x7bactual_width\x7d\n\nREQUIRED FIX:\nDeclare the signal correctly:\n    \x7bcorrect_declaration\x7d\n\nExamples:\n  Single bit:  reg signal;\n  8-bit:       reg [7:0] signal;\n  4-bit:       reg [3:0] signal;\n").toList

def syntaxErrorRaw : List Char :=
  ("\n╔").toList
    ++ hbar
    ++ ("╗\n║ ERROR: Verilog Syntax Error                                   ║\n╚").toList
    ++ hbar
    ++ ("╝\n\nGeneral syntax error detected.\n\nCOMMON ISSUES:\n- Missing semicolon\n- Unmatched begin/end\n- Wrong keyword spelling\n\nCheck your code structure carefully.\n").toList

/-- `generate_targeted_error_prompt` (`templates/error_fixes.py`):
aggregate the fix blocks for every recognized diagnostic kind present
in the summary, then join them. -/
def generate_targeted_error_prompt (error_summary : List Char)
    (ports : DutPorts) : List Char :=
  let fixes : List (List Char) := []
  let fixes :=
    if containsSub "PINMISSING".toList error_summary then
      let missing_ports := parse_pinmissing_error error_summary
      if missing_ports ≠ [] then
        let all_ports := ports.inputs ++ ports.outputs
        let port_conns := all_ports.map connLine
        fixes ++ [pinmissingFix (joinSep ", ".toList missing_ports)
          ports.module_name (joinSep ",\n".toList port_conns)]
      else fixes
    else fixes
  let fixes :=
    if containsSub "WIDTHTRUNC".toList error_summary
        || containsSub "WIDTHEXPAND".toList error_summary then
      let width_info := parse_width_error error_summary
      match width_info.port with
      | some port_name =>
        let port_width := lookupWidth port_name (ports.inputs ++ ports.outputs)
        let correct_decl :=
          if port_width ≠ [] then
            "reg ".toList ++ port_width ++ " ".toList ++ port_name ++ ";".toList
          else "reg ".toList ++ port_name ++ ";".toList
        fixes ++ [widthtruncFix port_name
          (width_info.expected_width.getD "N bits".toList)
          (width_info.actual_width.getD "M bits".toList) correct_decl]
      | none => fixes ++ [widthtruncRaw]
    else fixes
  let fixes :=
    if containsSub "Cannot find".toList error_summary
        && containsSub "module".toList (lowerAll error_summary) then
      fixes ++ [moduleNotFoundFix "<module>".toList ports.module_name]
    else fixes
  let fixes :=
    if fixes = [] && (containsSub "Error".toList error_summary
        || containsSub "error".toList error_summary) then
      [syntaxErrorRaw]
    else fixes
  if fixes ≠ [] then joinSep "\n\n".toList fixes
  else "Review and fix the errors shown above.".toList

/-! ### Theorems -/

/-- The first `if` of `clkRstStep` is the only one touching `has_clk`. -/
theorem clkRstStep_clk (f : PortFeatures) (a : PortEntry) :
    (clkRstStep f a).has_clk
      = (f.has_clk
          || decide (lowerAll a.1 = "clk".toList ∨ lowerAll a.1 = "clock".toList)) := by
  simp only [clkRstStep]
  split_ifs with h1 h2 h3 <;> simp_all

/-- The second `if` of `clkRstStep` is the only one touching `has_rst`. -/
theorem clkRstStep_rst (f : PortFeatures) (a : PortEntry) :
    (clkRstStep f a).has_rst
      = (f.has_rst
          || decide (lowerAll a.1 = "rst".toList ∨ lowerAll a.1 = "reset".toList)) := by
  simp only [clkRstStep]
  split_ifs with h1 h2 h3 <;> simp_all

theorem foldl_clkRstStep_clk (l : List PortEntry) (f : PortFeatures) :
    (l.foldl clkRstStep f).has_clk
      = (f.has_clk || l.any fun nw =>
          decide (lowerAll nw.1 = "clk".toList ∨ lowerAll nw.1 = "clock".toList)) := by
  induction l generalizing f with
  | nil => simp
  | cons a t ih => simp [ih, clkRstStep_clk, Bool.or_assoc]

theorem foldl_clkRstStep_rst (l : List PortEntry) (f : PortFeatures) :
    (l.foldl clkRstStep f).has_rst
      = (f.has_rst || l.any fun nw =>
          decide (lowerAll nw.1 = "rst".toList ∨ lowerAll nw.1 = "reset".toList)) := by
  induction l generalizing f with
  | nil => simp
  | cons a t ih => simp [ih, clkRstStep_rst, Bool.or_assoc]

/-- The multi-bit scan never modifies the clock/reset flags. -/
theorem multibitStep_clk (f : PortFeatures) (a : PortEntry) :
    (multibitStep f a).has_clk = f.has_clk := by
  simp only [multibitStep]
  split_ifs with h
  · cases searchWidthHigh a.2 <;> rfl
  · rfl

theorem multibitStep_rst (f : PortFeatures) (a : PortEntry) :
    (multibitStep f a).has_rst = f.has_rst := by
  simp only [multibitStep]
  split_ifs with h
  · cases searchWidthHigh a.2 <;> rfl
  · rfl

theorem foldl_multibitStep_clk (l : List PortEntry) (f : PortFeatures) :
    (l.foldl multibitStep f).has_clk = f.has_clk := by
  induction l generalizing f with
  | nil => rfl
  | cons a t ih => simp [ih, multibitStep_clk]

theorem foldl_multibitStep_rst (l : List PortEntry) (f : PortFeatures) :
    (l.foldl multibitStep f).has_rst = f.has_rst := by
  induction l generalizing f with
  | nil => rfl
  | cons a t ih => simp [ih, multibitStep_rst]

/-- Claim C10: clock and reset detection in `detect_port_features`
inspects input ports only, by case-insensitive exact name equality
against the alias sets `{clk, clock}` and `{rst, reset}`.  The
characterization as an existential over the *input* list shows that an
alias-named output port never sets the flag, and that a name merely
containing an alias as a substring (such as `clk_en`) never sets the
flag; the concrete conjuncts exhibit exactly that descriptor. -/
theorem clock_reset_detection_inputs_only :
    (∀ ports : DutPorts,
      ((detect_port_features ports).has_clk = true ↔
        ∃ nw ∈ ports.inputs,
          lowerAll nw.1 = "clk".toList ∨ lowerAll nw.1 = "clock".toList) ∧
      ((detect_port_features ports).has_rst = true ↔
        ∃ nw ∈ ports.inputs,
          lowerAll nw.1 = "rst".toList ∨ lowerAll nw.1 = "reset".toList)) ∧
    (detect_port_features
      { module_name := "m".toList,
        inputs := [("clk_en".toList, [])],
        outputs := [("clk".toList, []), ("rst".toList, [])] }).has_clk = false ∧
    (detect_port_features
      { module_name := "m".toList,
        inputs := [("clk_en".toList, [])],
        outputs := [("clk".toList, []), ("rst".toList, [])] }).has_rst = false := by
  refine ⟨fun ports => ⟨?_, ?_⟩, by decide, by decide⟩
  · rw [detect_port_features, foldl_multibitStep_clk, foldl_clkRstStep_clk]
    simp
  · rw [detect_port_features, foldl_multibitStep_rst, foldl_clkRstStep_rst]
    simp

/-- Claim C7: on the interface
`module m(input wire clk, input wire rst, input wire [7:0] data,
output reg [7:0] out)` the feature classifier reports a clock, a reset,
a multi-bit port, and a maximum width of 8 (high index + 1). -/
theorem features_of_clocked_octet_interface :
    (detect_port_features (extract_dut_ports true
      "module m(input wire clk, input wire rst, input wire [7:0] data, output reg [7:0] out)".toList)).has_clk
        = true ∧
    (detect_port_features (extract_dut_ports true
      "module m(input wire clk, input wire rst, input wire [7:0] data, output reg [7:0] out)".toList)).has_rst
        = true ∧
    (detect_port_features (extract_dut_ports true
      "module m(input wire clk, input wire rst, input wire [7:0] data, output reg [7:0] out)".toList)).has_multibit
        = true ∧
    (detect_port_features (extract_dut_ports true
      "module m(input wire clk, input wire rst, input wire [7:0] data, output reg [7:0] out)".toList)).max_width
        = 8 := by
  decide

/-- Counterexample to claim C3: in
`input wire a` / `input wire [1:0] b`, the unranged input `a` is
declared first in the source text, yet the extractor lists the ranged
input `b` first, because the four declaration patterns are scanned one
after the other over the whole text (ranged-wire matches are collected
before plain-wire matches).  The produced list is therefore not in
first-seen declaration order. -/
theorem unranged_before_ranged_is_reordered :
    (extract_dut_ports true "input wire a\ninput wire [1:0] b\n".toList).inputs
      = [("b".toList, "[1:0]".toList), ("a".toList, [])] ∧
    (extract_dut_ports true "input wire a\ninput wire [1:0] b\n".toList).inputs
      ≠ [("a".toList, []), ("b".toList, "[1:0]".toList)] := by
  decide

/-- Claim C3 (amended): the extractor recognizes declarations of the
form `direction storage-class [bit-range] identifier`, but the produced
input list is grouped by pattern — all ranged-wire matches, then all
plain-wire matches, then ranged-reg, then plain-reg — each group in
first-seen textual order (each group is a single left-to-right scan of
the text), and likewise for outputs; in particular an unranged input
declared before a ranged input appears after it, not before it. -/
theorem ports_grouped_by_pattern :
    (∀ content : List Char,
      (extract_dut_ports true content).inputs
        = runPattern (matchRangedDecl kInput kWire) content
          ++ runPattern (matchPlainDecl kInput kWire) content
          ++ runPattern (matchRangedDecl kInput kReg) content
          ++ runPattern (matchPlainDecl kInput kReg) content ∧
      (extract_dut_ports true content).outputs
        = runPattern (matchRangedDecl kOutput kWire) content
          ++ runPattern (matchPlainDecl kOutput kWire) content
          ++ runPattern (matchRangedDecl kOutput kReg) content
          ++ runPattern (matchPlainDecl kOutput kReg) content) ∧
    (extract_dut_ports true "input wire a\ninput wire [1:0] b\n".toList).inputs
      = [("b".toList, "[1:0]".toList), ("a".toList, [])] := by
  refine ⟨fun content => ⟨?_, ?_⟩, by decide⟩ <;>
    simp [extract_dut_ports, inputMatchers, outputMatchers]

/-- Counterexample to claim C4: the text `input wire x` contains no
module header, and the extractor does fall back to the default module
name, but its input port list is *not* empty — the declaration patterns
are matched against the text regardless of whether a header was
found. -/
theorem no_header_but_ports_extracted :
    searchModuleName "input wire x".toList = none ∧
    (extract_dut_ports true "input wire x".toList).inputs
      = [("x".toList, [])] ∧
    (extract_dut_ports true "input wire x".toList).inputs ≠ [] := by
  decide

/-- Claim C4 (amended): for every input text in which no module header
is found, the extractor does not fail: it returns a descriptor with the
default module name `my_dut`, with the port lists still extracted from
the text by the declaration patterns (so they are empty only when no
declaration matches); when the description file is absent the extractor
returns the default name together with empty port lists (the
"empty DUT" state). -/
theorem no_module_header_defaults :
    (∀ content : List Char, searchModuleName content = none →
      (extract_dut_ports true content).module_name = "my_dut".toList) ∧
    (∀ content : List Char,
      extract_dut_ports false content
        = { module_name := "my_dut".toList, inputs := [], outputs := [] }) := by
  constructor
  · intro content h
    simp [extract_dut_ports, h]
  · intro content
    rfl

/-- Witness for `no_module_header_defaults` at the concrete header-less
text `input wire x` and at the absent-file state. -/
theorem no_module_header_defaults_witness :
    (extract_dut_ports true "input wire x".toList).module_name = "my_dut".toList ∧
    extract_dut_ports false []
      = { module_name := "my_dut".toList, inputs := [], outputs := [] } :=
  ⟨no_module_header_defaults.1 _ (by decide), no_module_header_defaults.2 []⟩

/-- Claim C1: the Verification Driver runs exactly the checks its mode
prescribes (`compile_only` ↦ compile_dut, compile_tb;
`compile_elaborate` ↦ compile_dut, elaborate_dut, compile_tb;
`full_sim` ↦ all four), in order and fail-fast: `run_flow` coincides,
for every mode and every assignment of exit statuses to checks, with
the reference driver `runChecksSpec`, which by construction stops at
the first nonzero exit status, never invokes later checks, and returns
the failing check's name together with the results of every check
invoked so far (earlier passing ones included). -/
theorem run_flow_is_fail_fast (mode : Mode) (res : Step → StepResult) :
    run_flow mode res = runChecksSpec (checksOf mode) res := by
  cases mode <;>
    simp only [run_flow, checksOf, runChecksSpec, stepName] <;>
    split_ifs <;> simp_all

/-- One loop iteration whose generation succeeds and whose
verification fails continues the loop with the iteration index
incremented. -/
theorem refineGo_step (maxIter : Nat) (gen : Nat → Except (List Char) Unit)
    (verify : Nat → Bool × String × List (String × StepResult))
    (iter r : Nat) (logNums : List Nat) (genCount : Nat)
    (last : Option (Bool × String × List (String × StepResult)))
    (hg : gen iter = Except.ok ()) (hv : (verify iter).1 = false) :
    refineGo maxIter gen verify iter (r + 1) logNums genCount last
      = refineGo maxIter gen verify (iter + 1) r (logNums ++ [iter])
          (genCount + 1) (some (verify iter)) := by
  simp [refineGo, hg, hv]

/-- With at least one iteration left, the loop body does not read the
previous iteration's flow triple. -/
theorem refineGo_last_irrel (maxIter : Nat)
    (gen : Nat → Except (List Char) Unit)
    (verify : Nat → Bool × String × List (String × StepResult))
    (iter r : Nat) (logNums : List Nat) (genCount : Nat)
    (a b : Option (Bool × String × List (String × StepResult))) :
    refineGo maxIter gen verify iter (r + 1) logNums genCount a
      = refineGo maxIter gen verify iter (r + 1) logNums genCount b := by
  simp [refineGo]

/-- When generation always succeeds and verification always fails, the
loop runs through all remaining iterations, one generation attempt
each, and ends in the `max_iterations_reached` state carrying the last
iteration's flow results. -/
theorem refineGo_all_fail (maxIter : Nat)
    (gen : Nat → Except (List Char) Unit)
    (verify : Nat → Bool × String × List (String × StepResult))
    (hg : ∀ i, gen i = Except.ok ()) (hv : ∀ i, (verify i).1 = false) :
    ∀ (r iter : Nat) (logNums : List Nat) (genCount : Nat)
      (last : Option (Bool × String × List (String × StepResult))),
    refineGo maxIter gen verify iter (r + 1) logNums genCount last
      = { success := false, failing_step := (verify (iter + r)).2.1,
          results := (verify (iter + r)).2.2, iterations_used := maxIter,
          final_status := "max_iterations_reached",
          gen_attempts := genCount + (r + 1),
          iter_numbers := logNums ++ List.range' iter (r + 1) } := by
  intro r
  induction r with
  | zero =>
    intro iter logNums genCount last
    rw [refineGo_step maxIter gen verify iter 0 logNums genCount last
      (hg iter) (hv iter)]
    simp [refineGo, List.range']
  | succ n ih =>
    intro iter logNums genCount last
    rw [refineGo_step maxIter gen verify iter (n + 1) logNums genCount last
      (hg iter) (hv iter), ih]
    have harith : iter + 1 + n = iter + (n + 1) := by omega
    have hrange : List.range' iter (n + 1 + 1) = iter :: List.range' (iter + 1) (n + 1) := by
      rw [List.range'_succ]
    simp [harith, hrange]
    omega

/-- Claim C2: for every `max_iterations ≥ 1`, if each iteration's
generation succeeds and verification always fails, the orchestrator
performs exactly `max_iterations` generation attempts, terminates with
final status `max_iterations_reached`, retains the last iteration's
verification results and failing step, and records the iteration
indices `0, 1, …, max_iterations - 1` in order (`List.range`), each
exactly once — the index increases strictly monotonically and no
iteration is revisited. -/
theorem refinement_exhausts_iterations (maxIter : Nat)
    (gen : Nat → Except (List Char) Unit)
    (verify : Nat → Bool × String × List (String × StepResult))
    (hmax : 1 ≤ maxIter) (hg : ∀ i, gen i = Except.ok ())
    (hv : ∀ i, (verify i).1 = false) :
    (run_with_refinement maxIter gen verify).final_status
        = "max_iterations_reached" ∧
    (run_with_refinement maxIter gen verify).gen_attempts = maxIter ∧
    (run_with_refinement maxIter gen verify).iterations_used = maxIter ∧
    (run_with_refinement maxIter gen verify).success = false ∧
    (run_with_refinement maxIter gen verify).failing_step
        = (verify (maxIter - 1)).2.1 ∧
    (run_with_refinement maxIter gen verify).results
        = (verify (maxIter - 1)).2.2 ∧
    (run_with_refinement maxIter gen verify).iter_numbers
        = List.range maxIter := by
  obtain ⟨r, rfl⟩ : ∃ r, maxIter = r + 1 := ⟨maxIter - 1, by omega⟩
  rw [run_with_refinement, refineGo_all_fail (r + 1) gen verify hg hv]
  simp [List.range_eq_range']

/-- Witness for `refinement_exhausts_iterations`: two always-failing
iterations. -/
theorem refinement_exhausts_iterations_witness :
    (run_with_refinement 2 (fun _ => Except.ok ())
      (fun _ => (false, "compile_tb",
        [("compile_dut", ⟨0, [], []⟩), ("compile_tb", ⟨1, [], []⟩)]))).final_status
      = "max_iterations_reached" ∧
    (run_with_refinement 2 (fun _ => Except.ok ())
      (fun _ => (false, "compile_tb",
        [("compile_dut", ⟨0, [], []⟩), ("compile_tb", ⟨1, [], []⟩)]))).gen_attempts
      = 2 ∧
    (run_with_refinement 2 (fun _ => Except.ok ())
      (fun _ => (false, "compile_tb",
        [("compile_dut", ⟨0, [], []⟩), ("compile_tb", ⟨1, [], []⟩)]))).iterations_used
      = 2 := by
  have h := refinement_exhausts_iterations 2 (fun _ => Except.ok ())
    (fun _ => (false, "compile_tb",
      [("compile_dut", ⟨0, [], []⟩), ("compile_tb", ⟨1, [], []⟩)]))
    (by decide) (fun _ => rfl) (fun _ => rfl)
  exact ⟨h.1, h.2.1, h.2.2.1⟩

/-- A failing generation call aborts the run at once. -/
theorem refineGo_gen_fail (maxIter : Nat)
    (gen : Nat → Except (List Char) Unit)
    (verify : Nat → Bool × String × List (String × StepResult))
    (iter r : Nat) (logNums : List Nat) (genCount : Nat)
    (last : Option (Bool × String × List (String × StepResult)))
    (e : List Char) (hg : gen iter = Except.error e) :
    refineGo maxIter gen verify iter (r + 1) logNums genCount last
      = { success := false, failing_step := "testbench_generation",
          results := [], iterations_used := iter + 1,
          final_status := "generation_failed", gen_attempts := genCount + 1,
          iter_numbers := logNums ++ [iter] } := by
  simp [refineGo, hg]

/-- Running `k` succeeding-but-failing-verification iterations advances
the loop to iteration `k`. -/
theorem refineGo_advance (maxIter : Nat)
    (gen : Nat → Except (List Char) Unit)
    (verify : Nat → Bool × String × List (String × StepResult)) :
    ∀ (k iter r : Nat) (logNums : List Nat) (genCount : Nat)
      (last : Option (Bool × String × List (String × StepResult))),
    (∀ j, j < k → gen (iter + j) = Except.ok () ∧ (verify (iter + j)).1 = false) →
    refineGo maxIter gen verify iter (k + (r + 1)) logNums genCount last
      = refineGo maxIter gen verify (iter + k) (r + 1)
          (logNums ++ List.range' iter k) (genCount + k) last := by
  intro k
  induction k with
  | zero => intro iter r logNums genCount last _; simp [List.range']
  | succ n ih =>
    intro iter r logNums genCount last h
    have h0 := h 0 (by omega)
    have hsplit : n + 1 + (r + 1) = (n + (r + 1)) + 1 := by omega
    rw [hsplit, refineGo_step maxIter gen verify iter (n + (r + 1)) logNums
      genCount last (by simpa using h0.1) (by simpa using h0.2)]
    rw [ih (iter + 1) r (logNums ++ [iter]) (genCount + 1) (some (verify iter))
      (fun j hj => by
        have hx := h (j + 1) (by omega)
        simpa [show iter + 1 + j = iter + (j + 1) by omega] using hx)]
    rw [refineGo_last_irrel maxIter gen verify (iter + 1 + n) r
      ((logNums ++ [iter]) ++ List.range' (iter + 1) n) (genCount + 1 + n)
      (some (verify iter)) last]
    have h1 : iter + 1 + n = iter + (n + 1) := by omega
    have h2 : List.range' iter (n + 1) = iter :: List.range' (iter + 1) n := by
      rw [List.range'_succ]
    have h3 : genCount + 1 + n = genCount + (n + 1) := by omega
    simp [h1, h2, h3, List.append_assoc]

/-- Claim C6: when the fence-stripped raw generation output lacks a
`module` or an `endmodule` keyword, the sanitizer fails with an error
whose message carries the first 200 characters of the raw input, and —
if the run had reached that iteration by generating successfully and
failing verification on every earlier one — the whole refinement run
terminates right there with final status `generation_failed`
(failing step `testbench_generation`), having performed exactly
`i + 1` generation attempts: no further retry iterations are
consumed. -/
theorem sanitize_failure_aborts_run
    (llm : Nat → List Char)
    (verify : Nat → Bool × String × List (String × StepResult))
    (maxIter i : Nat) (hi : i < maxIter)
    (hok : ∀ j, j < i → ∃ y, sanitize_verilog_code (llm j) = Except.ok y)
    (hv : ∀ j, (verify j).1 = false)
    (hbad : findSub kModule (stripFences (llm i)) = none ∨
            rfindSub kEndmodule (stripFences (llm i)) = none) :
    sanitize_verilog_code (llm i)
        = Except.error (sanitizePreamble ++ (llm i).take 200) ∧
    (run_with_refinement maxIter (genFromLlm llm) verify).final_status
        = "generation_failed" ∧
    (run_with_refinement maxIter (genFromLlm llm) verify).failing_step
        = "testbench_generation" ∧
    (run_with_refinement maxIter (genFromLlm llm) verify).gen_attempts
        = i + 1 ∧
    (run_with_refinement maxIter (genFromLlm llm) verify).iterations_used
        = i + 1 := by
  have herr : sanitize_verilog_code (llm i)
      = Except.error (sanitizePreamble ++ (llm i).take 200) := by
    rcases hbad with h | h
    · simp [sanitize_verilog_code, h]
    · cases hf : findSub kModule (stripFences (llm i)) <;>
        simp [sanitize_verilog_code, h, hf]
  refine ⟨herr, ?_⟩
  have hgen : genFromLlm llm i
      = Except.error (sanitizePreamble ++ (llm i).take 200) := by
    simp [genFromLlm, herr]
  obtain ⟨m, rfl⟩ : ∃ m, maxIter = i + (m + 1) := ⟨maxIter - i - 1, by omega⟩
  rw [run_with_refinement,
    refineGo_advance (i + (m + 1)) (genFromLlm llm) verify i 0 m [] 0 none
      (fun j hj => by
        obtain ⟨y, hy⟩ := hok j (by omega)
        exact ⟨by simp [genFromLlm, hy], hv (0 + j)⟩)]
  simp only [List.nil_append, Nat.zero_add]
  rw [refineGo_gen_fail (i + (m + 1)) (genFromLlm llm) verify i m
    (List.range' 0 i) i none (sanitizePreamble ++ (llm i).take 200) hgen]
  simp

/-- Witness for `sanitize_failure_aborts_run`: raw output with no
module keywords at all, failing at the very first iteration. -/
theorem sanitize_failure_aborts_run_witness :
    sanitize_verilog_code ("just text".toList)
        = Except.error (sanitizePreamble ++ ("just text".toList).take 200) ∧
    (run_with_refinement 3 (genFromLlm fun _ => "just text".toList)
      (fun _ => (false, "compile_tb", []))).final_status
        = "generation_failed" ∧
    (run_with_refinement 3 (genFromLlm fun _ => "just text".toList)
      (fun _ => (false, "compile_tb", []))).gen_attempts = 1 := by
  have h := sanitize_failure_aborts_run (fun _ => "just text".toList)
    (fun _ => (false, "compile_tb", [])) 3 0 (by omega)
    (fun j hj => absurd hj (by omega)) (fun _ => rfl)
    (Or.inl (by decide))
  exact ⟨h.1, h.2.1, h.2.2.2.1⟩

/-- `containsSub` is exactly substring (infix) containment. -/
theorem containsSub_iff (pat s : List Char) :
    containsSub pat s = true ↔ pat <:+: s := by
  induction s with
  | nil =>
    simp only [containsSub, findSub]
    split_ifs with h
    · simp only [Option.isSome_some, true_iff]
      rw [List.isPrefixOf_iff_prefix] at h
      exact h.isInfix
    · rw [List.isPrefixOf_iff_prefix, List.prefix_nil] at h
      simp only [Option.isSome_none, Bool.false_eq_true, false_iff,
        List.infix_nil]
      exact h
  | cons c r ih =>
    simp only [containsSub, findSub]
    split_ifs with h
    · simp only [Option.isSome_some, true_iff]
      rw [List.isPrefixOf_iff_prefix] at h
      exact h.isInfix
    · rw [List.isPrefixOf_iff_prefix] at h
      rw [Option.isSome_map']
      rw [containsSub] at ih
      rw [ih, List.infix_cons_iff]
      constructor
      · exact Or.inr
      · rintro (hp | hi)
        · exact absurd hp h
        · exact hi

theorem containsSub_of_infix {pat s : List Char} (h : pat <:+: s) :
    containsSub pat s = true := (containsSub_iff pat s).2 h

/-- Extend an infix on the right. -/
theorem infix_ext_right {p a : List Char} (h : p <:+: a) (b : List Char) :
    p <:+: a ++ b := by
  obtain ⟨u, v, huv⟩ := h
  exact ⟨u, v ++ b, by rw [← huv]; simp⟩

/-- Extend an infix on the left. -/
theorem infix_ext_left {p b : List Char} (a : List Char) (h : p <:+: b) :
    p <:+: a ++ b := by
  obtain ⟨u, v, huv⟩ := h
  exact ⟨a ++ u, v, by rw [← huv]; simp⟩

/-- Every joined piece is an infix of the join. -/
theorem infix_joinSep (sep : List Char) :
    ∀ (l : List (List Char)) (x : List Char), x ∈ l → x <:+: joinSep sep l := by
  intro l
  induction l with
  | nil => intro x hx; simp at hx
  | cons y rest ih =>
    intro x hx
    rcases List.mem_cons.1 hx with rfl | hmem
    · cases rest with
      | nil => exact List.infix_rfl
      | cons z rs =>
        rw [joinSep]
        exact infix_ext_right (infix_ext_right List.infix_rfl _) _
    · cases rest with
      | nil => simp at hmem
      | cons z rs =>
        rw [joinSep]
        exact infix_ext_left _ (ih x hmem)

/-- Marker containment lifted through a `joinSep` of fix blocks. -/
theorem containsSub_joinSep {M x : List Char} (sep : List Char)
    (l : List (List Char)) (hx : x ∈ l) (h : M <:+: x) :
    containsSub M (joinSep sep l) = true :=
  containsSub_of_infix (h.trans (infix_joinSep sep l x hx))

set_option maxRecDepth 4000 in
theorem marker_in_pinmissingFix (p m c : List Char) :
    "Missing Port Connection".toList <:+: pinmissingFix p m c := by
  unfold pinmissingFix
  iterate 12 apply infix_ext_right
  exact infix_ext_left _ ((containsSub_iff _ _).1 (by decide))

set_option maxRecDepth 4000 in
theorem marker_in_widthtruncFix (p e a d : List Char) :
    "Bit Width Mismatch".toList <:+: widthtruncFix p e a d := by
  unfold widthtruncFix
  iterate 10 apply infix_ext_right
  exact infix_ext_left _ ((containsSub_iff _ _).1 (by decide))

set_option maxRecDepth 4000 in
theorem marker_in_widthtruncRaw :
    "Bit Width Mismatch".toList <:+: widthtruncRaw := by
  unfold widthtruncRaw
  iterate 2 apply infix_ext_right
  exact infix_ext_left _ ((containsSub_iff _ _).1 (by decide))

theorem decl_in_widthtruncFix (p e a d : List Char) :
    d <:+: widthtruncFix p e a d := by
  unfold widthtruncFix
  apply infix_ext_right
  exact infix_ext_left _ List.infix_rfl

/-- Claim C8: classification aggregates and never short-circuits — a
diagnostic blob containing both a `PINMISSING` marker (with at least
one quoted missing pin) and a width marker (`WIDTHTRUNC` or
`WIDTHEXPAND`) produces an output containing both the
missing-connection fix block and the width-mismatch fix block, not
just the first matched kind. -/
theorem diagnostic_aggregation
    (error_summary : List Char) (ports : DutPorts)
    (hpin : containsSub "PINMISSING".toList error_summary = true)
    (hmiss : parse_pinmissing_error error_summary ≠ [])
    (hwid : containsSub "WIDTHTRUNC".toList error_summary = true ∨
            containsSub "WIDTHEXPAND".toList error_summary = true) :
    containsSub "Missing Port Connection".toList
      (generate_targeted_error_prompt error_summary ports) = true ∧
    containsSub "Bit Width Mismatch".toList
      (generate_targeted_error_prompt error_summary ports) = true := by
  have hw : (containsSub "WIDTHTRUNC".toList error_summary
      || containsSub "WIDTHEXPAND".toList error_summary) = true := by
    rcases hwid with h | h
    · rw [h, Bool.true_or]
    · rw [h, Bool.or_true]
  unfold generate_targeted_error_prompt
  simp only [hpin, hw, hmiss, List.nil_append, if_true, ne_eq,
    not_false_eq_true, ite_true]
  rcases hp : (parse_width_error error_summary).port with _ | pn <;>
    simp only [hp] <;>
    cases hcf : (containsSub "Cannot find".toList error_summary
      && containsSub "module".toList (lowerAll error_summary)) <;>
    simp only [hcf, Bool.false_eq_true, if_true, if_false, ite_true,
      ite_false, List.cons_ne_nil, ne_eq, not_false_eq_true,
      List.cons_append, List.nil_append, reduceCtorEq,
      List.append_eq_nil, and_false, false_and, Bool.false_and,
      Bool.and_false, if_neg] <;>
    refine ⟨containsSub_joinSep _ _ (List.mem_cons_self _ _)
      (marker_in_pinmissingFix _ _ _), ?_⟩
  · exact containsSub_joinSep _ _
      (List.mem_cons_of_mem _ (List.mem_cons_self _ _)) marker_in_widthtruncRaw
  · exact containsSub_joinSep _ _
      (List.mem_cons_of_mem _ (List.mem_cons_self _ _)) marker_in_widthtruncRaw
  · exact containsSub_joinSep _ _
      (List.mem_cons_of_mem _ (List.mem_cons_self _ _))
      (marker_in_widthtruncFix _ _ _ _)
  · exact containsSub_joinSep _ _
      (List.mem_cons_of_mem _ (List.mem_cons_self _ _))
      (marker_in_widthtruncFix _ _ _ _)

/-- Witness for `diagnostic_aggregation`: a blob with both a missing
pin and a width truncation. -/
theorem diagnostic_aggregation_witness :
    containsSub "Missing Port Connection".toList
      (generate_targeted_error_prompt
        "%Error-PINMISSING: missing pin: 'clk'\n%Warning-WIDTHTRUNC: port 'data' expects 8 bits but got 3 bits".toList
        { module_name := "m".toList, inputs := [("clk".toList, [])],
          outputs := [] }) = true ∧
    containsSub "Bit Width Mismatch".toList
      (generate_targeted_error_prompt
        "%Error-PINMISSING: missing pin: 'clk'\n%Warning-WIDTHTRUNC: port 'data' expects 8 bits but got 3 bits".toList
        { module_name := "m".toList, inputs := [("clk".toList, [])],
          outputs := [] }) = true :=
  diagnostic_aggregation
    "%Error-PINMISSING: missing pin: 'clk'\n%Warning-WIDTHTRUNC: port 'data' expects 8 bits but got 3 bits".toList
    { module_name := "m".toList, inputs := [("clk".toList, [])],
      outputs := [] }
    (by decide) (by decide) (Or.inl (by decide))

/-- `decl_in_widthtruncFix` up to an evaluated equality of the
declaration text. -/
theorem decl_in_widthtruncFix' (p e a d d' : List Char) (hd : d' = d) :
    d' <:+: widthtruncFix p e a d := hd ▸ decl_in_widthtruncFix p e a d

/-- Claim C9: width-mismatch feedback takes the corrected declaration
from the interface descriptor, not from the numbers in the diagnostic:
whenever the descriptor's first port named `data` has width `[7:0]`
and the diagnostic names port `data` with a width marker (whatever
bit-count numbers it reports), the synthesized output contains the
declaration `reg [7:0] data;` built from the descriptor's range. -/
theorem width_fix_uses_descriptor_width
    (error_summary : List Char) (ports : DutPorts)
    (hwid : containsSub "WIDTHTRUNC".toList error_summary = true ∨
            containsSub "WIDTHEXPAND".toList error_summary = true)
    (hport : (parse_width_error error_summary).port = some "data".toList)
    (hlook : lookupWidth "data".toList (ports.inputs ++ ports.outputs)
        = "[7:0]".toList) :
    containsSub "reg [7:0] data;".toList
      (generate_targeted_error_prompt error_summary ports) = true := by
  have hw : (containsSub "WIDTHTRUNC".toList error_summary
      || containsSub "WIDTHEXPAND".toList error_summary) = true := by
    rcases hwid with h | h
    · rw [h, Bool.true_or]
    · rw [h, Bool.or_true]
  have hnn : ("[7:0]".toList ≠ ([] : List Char)) := by decide
  unfold generate_targeted_error_prompt
  simp only [hw, hport, hlook, hnn, if_true, ite_true, ne_eq,
    not_false_eq_true]
  cases hpin : containsSub "PINMISSING".toList error_summary <;>
    simp only [hpin, Bool.false_eq_true, if_false, ite_false, if_true,
      ite_true, List.nil_append]
  case false =>
    cases hcf : (containsSub "Cannot find".toList error_summary
        && containsSub "module".toList (lowerAll error_summary)) <;>
      simp only [hcf, Bool.false_eq_true, if_false, ite_false, if_true,
        ite_true, List.cons_ne_nil, ne_eq, not_false_eq_true,
        reduceCtorEq] <;>
      exact containsSub_joinSep _ _ (List.mem_cons_self _ _)
        (decl_in_widthtruncFix' _ _ _ _ _ (by decide))
  case true =>
    by_cases hm : parse_pinmissing_error error_summary ≠ [] <;>
      simp only [hm, if_true, ite_true, if_false, ite_false, ne_eq,
        not_false_eq_true, not_not, List.nil_append] <;>
      cases hcf : (containsSub "Cannot find".toList error_summary
          && containsSub "module".toList (lowerAll error_summary)) <;>
        simp only [hcf, Bool.false_eq_true, if_false, ite_false, if_true,
          ite_true, List.cons_ne_nil, ne_eq, not_false_eq_true,
          reduceCtorEq]
    · exact containsSub_joinSep _ _
        (List.mem_cons_of_mem _ (List.mem_cons_self _ _))
        (decl_in_widthtruncFix' _ _ _ _ _ (by decide))
    · exact containsSub_joinSep _ _
        (List.mem_cons_of_mem _ (List.mem_cons_self _ _))
        (decl_in_widthtruncFix' _ _ _ _ _ (by decide))
    · exact containsSub_joinSep _ _ (List.mem_cons_self _ _)
        (decl_in_widthtruncFix' _ _ _ _ _ (by decide))
    · exact containsSub_joinSep _ _ (List.mem_cons_self _ _)
        (decl_in_widthtruncFix' _ _ _ _ _ (by decide))

/-- Witness for `width_fix_uses_descriptor_width`: diagnostic numbers
8/3, descriptor width `[7:0]`. -/
theorem width_fix_uses_descriptor_width_witness :
    containsSub "reg [7:0] data;".toList
      (generate_targeted_error_prompt
        "%Warning-WIDTHTRUNC: Operator ASSIGN expects 8 bits on port 'data' but got 3 bits".toList
        { module_name := "m".toList,
          inputs := [("data".toList, "[7:0]".toList)],
          outputs := [] }) = true :=
  width_fix_uses_descriptor_width
    "%Warning-WIDTHTRUNC: Operator ASSIGN expects 8 bits on port 'data' but got 3 bits".toList
    { module_name := "m".toList,
      inputs := [("data".toList, "[7:0]".toList)],
      outputs := [] }
    (Or.inl (by decide)) (by decide) (by decide)

theorem containsSub_eq_false_iff (pat s : List Char) :
    containsSub pat s = false ↔ ¬ pat <:+: s := by
  rw [← containsSub_iff]
  cases containsSub pat s <;> simp

/-- No-fence texts are closed under taking infixes. -/
theorem noTicks_of_within {s t : List Char} (h : containsTicks s = false)
    (ht : t <:+: s) : containsTicks t = false := by
  rw [containsTicks, containsSub_eq_false_iff] at h ⊢
  exact fun hc => h (hc.trans ht)

/-- An occurrence of `pat` in `l ++ [c]` with `c ∉ pat` lies in `l`. -/
theorem infix_append_singleton_elim {pat l : List Char} {c : Char}
    (hc : c ∉ pat) (h : pat <:+: l ++ [c]) : pat <:+: l := by
  have h' : pat.reverse <:+: c :: l.reverse := by
    have hr := h.reverse
    simpa using hr
  rcases List.infix_cons_iff.1 h' with hp | hi
  · rcases pat with _ | ⟨p, ps⟩
    · exact ⟨[], l, by simp⟩
    · exfalso
      rcases hx : (p :: ps).reverse with _ | ⟨q, qs⟩
      · exact absurd hx (by simp)
      · rw [hx] at hp
        have hqc : q = c := (List.cons_prefix_cons.1 hp).1
        apply hc
        have hcm : c ∈ (p :: ps).reverse := by
          rw [hx, hqc]
          exact List.mem_cons_self _ _
        exact List.mem_reverse.1 hcm
  · exact List.reverse_infix.1 hi

/-- Appending the trailing newline cannot create a fence. -/
theorem noTicks_append_nl {s : List Char} (h : containsTicks s = false) :
    containsTicks (s ++ ['\n']) = false := by
  rw [containsTicks, containsSub_eq_false_iff] at h ⊢
  exact fun hc => h (infix_append_singleton_elim (by decide) hc)

theorem noTicks_cons {c : Char} {t : List Char} (hhead : ¬ tick3 <+: c :: t)
    (ht : containsTicks t = false) : containsTicks (c :: t) = false := by
  rw [containsTicks, containsSub_eq_false_iff] at ht ⊢
  intro hc
  rcases List.infix_cons_iff.1 hc with hp | hi
  · exact hhead hp
  · exact ht hi

theorem findSub_of_prefix {pat s : List Char} (h : pat <+: s) :
    findSub pat s = some 0 := by
  cases s <;> simp [findSub, List.isPrefixOf_iff_prefix, h]

theorem rfindSub_sound {pat s : List Char} :
    ∀ {i}, rfindSub pat s = some i →
      pat <+: s.drop i ∧ i + pat.length ≤ s.length := by
  induction s with
  | nil =>
    intro i h
    rw [rfindSub] at h
    split_ifs at h with hp
    rw [List.isPrefixOf_iff_prefix, List.prefix_nil] at hp
    cases h
    subst hp
    exact ⟨List.prefix_rfl, by simp⟩
  | cons c r ih =>
    intro i h
    rw [rfindSub] at h
    cases hr : rfindSub pat r with
    | some j =>
      rw [hr] at h
      cases h
      obtain ⟨hpre, hlen⟩ := ih hr
      exact ⟨by simpa [List.drop_succ_cons] using hpre, by simp; omega⟩
    | none =>
      rw [hr] at h
      split_ifs at h with hp
      cases h
      rw [List.isPrefixOf_iff_prefix] at hp
      exact ⟨by simpa using hp, by simpa using hp.length_le⟩

theorem rfindSub_complete {pat s : List Char} :
    ∀ {i}, i + pat.length ≤ s.length → pat <+: s.drop i →
      ∃ j, rfindSub pat s = some j ∧ i ≤ j := by
  induction s with
  | nil =>
    intro i hi _
    simp only [List.length_nil, Nat.le_zero, Nat.add_eq_zero] at hi
    obtain ⟨rfl, hlen⟩ := hi
    have : pat = [] := List.length_eq_zero.1 hlen
    subst this
    exact ⟨0, by rw [rfindSub]; simp [List.isPrefixOf], Nat.le_refl 0⟩
  | cons c r ih =>
    intro i hi hp
    cases i with
    | zero =>
      rw [rfindSub]
      cases hr : rfindSub pat r with
      | some j => exact ⟨j + 1, rfl, by omega⟩
      | none =>
        have hb : pat.isPrefixOf (c :: r) = true :=
          List.isPrefixOf_iff_prefix.2 (by simpa using hp)
        exact ⟨0, by simp [hb], Nat.le_refl 0⟩
    | succ i' =>
      have hp' : pat <+: r.drop i' := by
        simpa [List.drop_succ_cons] using hp
      have hi' : i' + pat.length ≤ r.length := by
        simp at hi
        omega
      obtain ⟨j, hj, hij⟩ := ih hi' hp'
      exact ⟨j + 1, by rw [rfindSub, hj], by omega⟩

theorem rfindSub_of_suffix {pat s : List Char} (h : pat <:+ s) :
    rfindSub pat s = some (s.length - pat.length) := by
  obtain ⟨t, rfl⟩ := h
  have hocc : pat <+: (t ++ pat).drop t.length := by
    rw [List.drop_left]
  have hlen : t.length + pat.length ≤ (t ++ pat).length := by simp
  obtain ⟨j, hj, hij⟩ := rfindSub_complete hlen hocc
  obtain ⟨_, hle⟩ := rfindSub_sound hj
  have hjt : j = t.length := by
    simp only [List.length_append] at hle
    omega
  subst hjt
  rw [hj]
  congr 1
  simp

theorem ensureNl_of_suffix_endmodule {s : List Char} (h : kEndmodule <:+ s) :
    ensureNl s = s ++ ['\n'] := by
  obtain ⟨t, rfl⟩ := h
  rw [ensureNl]
  have hlast : (t ++ kEndmodule).getLast? = some 'e' := by
    rw [List.getLast?_append]
    rfl
  rw [hlast]
  simp

theorem not_ticks_prefix_short1 (c : Char) : ¬ tick3 <+: [c] := by
  intro hp
  have := hp.length_le
  simp [tick3] at this

theorem not_ticks_prefix_short2 (c d : Char) : ¬ tick3 <+: [c, d] := by
  intro hp
  have := hp.length_le
  simp [tick3] at this

theorem not_ticks_prefix_head {c : Char} (h : c ≠ '`') (t : List Char) :
    ¬ tick3 <+: c :: t := by
  simp only [tick3]
  intro hp
  exact h (List.cons_prefix_cons.1 hp).1.symm

theorem not_ticks_prefix_second {c : Char} (h : c ≠ '`') (b : Char)
    (t : List Char) : ¬ tick3 <+: b :: c :: t := by
  simp only [tick3]
  intro hp
  exact h (List.cons_prefix_cons.1 (List.cons_prefix_cons.1 hp).2).1.symm

theorem not_ticks_prefix_third {c : Char} (h : c ≠ '`') (a b : Char)
    (t : List Char) : ¬ tick3 <+: a :: b :: c :: t := by
  simp only [tick3]
  intro hp
  exact h (List.cons_prefix_cons.1
    (List.cons_prefix_cons.1 (List.cons_prefix_cons.1 hp).2).2).1.symm

/-- Key invariant of the last stripping pass: its output never
contains a triple backtick.  A run of backticks is always consumed
from the left in groups of three, and a kept backtick is never
followed by two more kept backticks (if it were, the scanner would
have removed the triple). -/
theorem subTick_no_ticks (s : List Char) :
    containsTicks (subTick s) = false := by
  have main : ∀ n, ∀ s : List Char, s.length ≤ n →
      containsTicks (subTick s) = false := by
    intro n
    induction n with
    | zero =>
      intro s hs
      have : s = [] := List.length_eq_zero.1 (Nat.le_zero.1 hs)
      subst this
      rfl
    | succ n ih =>
      intro s hs
      rcases s with _ | ⟨c1, s1⟩
      · rfl
      rcases s1 with _ | ⟨c2, s2⟩
      · rw [show subTick [c1] = [c1] from by simp [subTick]]
        exact noTicks_cons (not_ticks_prefix_short1 c1) rfl
      rcases s2 with _ | ⟨c3, s3⟩
      · rw [show subTick [c1, c2] = [c1, c2] from by simp [subTick]]
        exact noTicks_cons (not_ticks_prefix_short2 c1 c2)
          (noTicks_cons (not_ticks_prefix_short1 c2) rfl)
      by_cases h1 : c1 = '`'
      case neg =>
        rw [show subTick (c1 :: c2 :: c3 :: s3) = c1 :: subTick (c2 :: c3 :: s3)
          from by simp [subTick, h1]]
        exact noTicks_cons (not_ticks_prefix_head h1 _)
          (ih (c2 :: c3 :: s3) (by simp at hs ⊢; omega))
      case pos =>
        subst h1
        by_cases h2 : c2 = '`'
        case neg =>
          rw [show subTick ('`' :: c2 :: c3 :: s3)
              = '`' :: c2 :: subTick (c3 :: s3) from by simp [subTick, h2]]
          have hrec : containsTicks (c2 :: subTick (c3 :: s3)) = false := by
            have hx : containsTicks (subTick (c3 :: s3)) = false :=
              ih (c3 :: s3) (by simp at hs ⊢; omega)
            have hstep : subTick (c2 :: c3 :: s3) = c2 :: subTick (c3 :: s3) := by
              simp [subTick, h2]
            have := ih (c2 :: c3 :: s3) (by simp at hs ⊢; omega)
            rwa [hstep] at this
          exact noTicks_cons (not_ticks_prefix_second h2 _ _) hrec
        case pos =>
          subst h2
          by_cases h3 : c3 = '`'
          case pos =>
            subst h3
            rcases s3 with _ | ⟨c4, s4⟩
            · rw [show subTick ['`', '`', '`'] = [] from rfl]
              rfl
            · by_cases h4 : c4 = '\n'
              · subst h4
                rw [show subTick ('`' :: '`' :: '`' :: '\n' :: s4) = subTick s4
                  from rfl]
                exact ih s4 (by simp at hs ⊢; omega)
              · rw [show subTick ('`' :: '`' :: '`' :: c4 :: s4)
                    = subTick (c4 :: s4) from by simp [subTick, h4]]
                exact ih (c4 :: s4) (by simp at hs ⊢; omega)
          case neg =>
            rw [show subTick ('`' :: '`' :: c3 :: s3)
                = '`' :: '`' :: c3 :: subTick s3 from by simp [subTick, h3]]
            have hts3 : containsTicks (subTick s3) = false :=
              ih s3 (by simp at hs ⊢; omega)
            exact noTicks_cons (not_ticks_prefix_third h3 _ _ _)
              (noTicks_cons (not_ticks_prefix_second h3 _ _)
                (noTicks_cons (not_ticks_prefix_head h3 _) hts3))
  exact main s.length s Nat.le.refl

/-- The fence-stripped text never contains a fence delimiter. -/
theorem stripFences_no_ticks (x : List Char) :
    containsTicks (stripFences x) = false := subTick_no_ticks _

/-- A pass removing a fenced literal is the identity on fence-free
text. -/
theorem subLitNl_id {pat : List Char} (hpat : tick3 <+: pat) :
    ∀ (fuel : Nat) (s : List Char), containsTicks s = false →
      subLitNl pat fuel s = s := by
  intro fuel
  induction fuel with
  | zero => intro s _; cases s <;> rfl
  | succ f ih =>
    intro s hs
    cases s with
    | nil => rfl
    | cons c rest =>
      have hnp : pat.isPrefixOf (c :: rest) = false := by
        rw [← Bool.not_eq_true, List.isPrefixOf_iff_prefix]
        intro hp
        rw [containsTicks, containsSub_eq_false_iff] at hs
        exact hs (hpat.trans hp).isInfix
      rw [subLitNl, hnp]
      simp only [Bool.false_eq_true, if_false]
      rw [ih rest (noTicks_of_within hs (List.suffix_cons c rest).isInfix)]

theorem subVer_id {s : List Char} (h : containsTicks s = false) :
    subVer s = s := subLitNl_id (by decide) _ s h

theorem subSysVer_id {s : List Char} (h : containsTicks s = false) :
    subSysVer s = s := subLitNl_id (by decide) _ s h

/-- The plain-fence pass is the identity on fence-free text. -/
theorem subTick_id : ∀ (s : List Char), containsTicks s = false →
    subTick s = s := by
  have main : ∀ n (s : List Char), s.length ≤ n →
      containsTicks s = false → subTick s = s := by
    intro n
    induction n with
    | zero =>
      intro s hs _
      have : s = [] := List.length_eq_zero.1 (Nat.le_zero.1 hs)
      subst this
      rfl
    | succ n ih =>
      intro s hs h
      rcases s with _ | ⟨c, r⟩
      · rfl
      have hr : containsTicks r = false :=
        noTicks_of_within h (List.suffix_cons c r).isInfix
      have hstep : subTick (c :: r) = c :: subTick r := by
        by_cases h1 : c = '`'
        · subst h1
          rcases r with _ | ⟨d, r2⟩
          · simp [subTick]
          · by_cases h2 : d = '`'
            · subst h2
              rcases r2 with _ | ⟨e, r3⟩
              · simp [subTick]
              · by_cases h3 : e = '`'
                · exfalso
                  subst h3
                  rw [containsTicks, containsSub_eq_false_iff] at h
                  exact h ⟨[], r3, by simp [tick3]⟩
                · simp [subTick, h3]
            · simp [subTick, h2]
        · simp [subTick, h1]
      rw [hstep, ih r (by simp at hs ⊢; omega) hr]
  intro s
  exact main s.length s Nat.le.refl

/-- Fence stripping is the identity on fence-free text. -/
theorem stripFences_id {s : List Char} (h : containsTicks s = false) :
    stripFences s = s := by
  rw [stripFences, subVer_id h, subSysVer_id h, subTick_id s h]

theorem findSub_sound {pat s : List Char} :
    ∀ {i}, findSub pat s = some i → pat <+: s.drop i := by
  induction s with
  | nil =>
    intro i h
    rw [findSub] at h
    split_ifs at h with hp
    cases h
    rw [List.isPrefixOf_iff_prefix] at hp
    simpa using hp
  | cons c r ih =>
    intro i h
    rw [findSub] at h
    split_ifs at h with hp
    · cases h
      rw [List.isPrefixOf_iff_prefix] at hp
      simpa using hp
    · cases hfr : findSub pat r with
      | none => rw [hfr] at h; cases h
      | some j =>
        rw [hfr] at h
        simp only [Option.map_some'] at h
        cases h
        simpa [List.drop_succ_cons] using ih hfr

/-- Sanitizing already-clean module text: no fence delimiter, begins
with the `module` keyword, ends with the `endmodule` keyword — the
result is the same text with exactly a trailing newline appended. -/
theorem sanitize_clean (x : List Char) (ht : containsTicks x = false)
    (hm : kModule <+: x) (he : kEndmodule <:+ x) :
    sanitize_verilog_code x = Except.ok (x ++ ['\n']) := by
  have hid : stripFences x = x := stripFences_id ht
  have hf : findSub kModule x = some 0 := findSub_of_prefix hm
  have hr : rfindSub kEndmodule x = some (x.length - kEndmodule.length) :=
    rfindSub_of_suffix he
  have hlen : kEndmodule.length ≤ x.length := he.length_le
  simp only [sanitize_verilog_code, hid, hf, hr]
  have harith : x.length - kEndmodule.length + kEndmodule.length - 0
      = x.length := by omega
  rw [List.drop_zero, harith, List.take_length,
    ensureNl_of_suffix_endmodule he]

/-- When the first `module` occurs at or before the last `endmodule`
in the fence-stripped text, sanitization succeeds and its output is a
fixed point of the sanitizer. -/
theorem sanitize_idem_of_ordered (x : List Char) {s e : Nat}
    (hf : findSub kModule (stripFences x) = some s)
    (hr : rfindSub kEndmodule (stripFences x) = some e)
    (hse : s ≤ e) :
    ∃ y, sanitize_verilog_code x = Except.ok y ∧
      sanitize_verilog_code y = Except.ok y := by
  have h9 : kEndmodule.length = 9 := by decide
  have h6 : kModule.length = 6 := by decide
  set code := stripFences x with hcode
  have hticks : containsTicks code = false := stripFences_no_ticks x
  have hm : kModule <+: code.drop s := findSub_sound hf
  obtain ⟨hept, helen⟩ := rfindSub_sound hr
  set clean := (code.drop s).take (e + kEndmodule.length - s) with hclean
  have hdropclean : clean.drop (e - s) = kEndmodule := by
    rw [hclean, List.drop_take, List.drop_drop]
    have h1 : s + (e - s) = e := by omega
    have h2 : e + kEndmodule.length - s - (e - s) = kEndmodule.length := by
      omega
    rw [h1, h2]
    exact (List.prefix_iff_eq_take.1 hept).symm
  have hsuffix : kEndmodule <:+ clean := by
    refine ⟨clean.take (e - s), ?_⟩
    rw [← hdropclean]
    exact List.take_append_drop _ _
  have hcleanmod : kModule <+: clean := by
    rw [hclean, List.prefix_take_iff]
    exact ⟨hm, by omega⟩
  have hcleanticks : containsTicks clean = false := by
    apply noTicks_of_within hticks
    exact (List.take_prefix _ _).isInfix.trans (List.drop_suffix s code).isInfix
  have hcleanlen : clean.length = e + kEndmodule.length - s := by
    rw [hclean, List.length_take, List.length_drop]
    omega
  have hx : sanitize_verilog_code x = Except.ok (clean ++ ['\n']) := by
    simp only [sanitize_verilog_code, hf, hr]
    rw [← hcode, ← hclean, ensureNl_of_suffix_endmodule hsuffix]
  set y := clean ++ ['\n'] with hy
  have hyticks : containsTicks y = false := noTicks_append_nl hcleanticks
  have hyid : stripFences y = y := stripFences_id hyticks
  have hyf : findSub kModule y = some 0 :=
    findSub_of_prefix (hcleanmod.trans (List.prefix_append clean ['\n']))
  have hylen : y.length = clean.length + 1 := by rw [hy]; simp
  have hyr : rfindSub kEndmodule y
      = some (clean.length - kEndmodule.length) := by
    have hocc : kEndmodule <+: y.drop (clean.length - kEndmodule.length) := by
      rw [hy, List.drop_append_of_le_length (by omega)]
      have hd : clean.drop (clean.length - kEndmodule.length) = kEndmodule := by
        have hq : clean.length - kEndmodule.length = e - s := by omega
        rw [hq, hdropclean]
      rw [hd]
      exact List.prefix_append _ _
    have hlen2 : (clean.length - kEndmodule.length) + kEndmodule.length
        ≤ y.length := by omega
    obtain ⟨j, hj, hij⟩ := rfindSub_complete hlen2 hocc
    obtain ⟨hjpre, hjle⟩ := rfindSub_sound hj
    rcases Nat.lt_or_ge j (clean.length - kEndmodule.length + 1) with hlt | hge
    · have hjv : j = clean.length - kEndmodule.length := by omega
      rw [hj, hjv]
    · exfalso
      have hdy : y.drop j = clean.drop j ++ ['\n'] := by
        rw [hy, List.drop_append_of_le_length (by omega)]
      have hlendy : (y.drop j).length = kEndmodule.length := by
        rw [List.length_drop, hylen]
        omega
      have heq : y.drop j = kEndmodule :=
        (hjpre.eq_of_length hlendy.symm).symm
      have h1 : (y.drop j).getLast? = some '\n' := by
        rw [hdy, List.getLast?_append]
        rfl
      rw [heq] at h1
      exact absurd h1 (by decide)
  have hy2 : sanitize_verilog_code y = Except.ok y := by
    simp only [sanitize_verilog_code, hyid, hyf, hyr]
    have harith : clean.length - kEndmodule.length + kEndmodule.length - 0
        = clean.length := by omega
    rw [List.drop_zero, harith, hy, List.take_left,
      ensureNl_of_suffix_endmodule hsuffix]
  exact ⟨y, hx, hy2⟩

/-- Counterexample to claim C5: `sanitize` succeeds on `endmodule` —
the first `module` occurrence (index 3, inside `endmodule`) lies after
the last `endmodule` occurrence (index 0), and the overlapping Python
slice `code[3:9]` yields `module`, so the call returns `module\n`; yet
sanitizing that output raises (it contains no `endmodule`).  So
`sanitize (sanitize x) = sanitize x` fails for an `x` on which
`sanitize` succeeds. -/
theorem sanitize_twice_can_fail :
    sanitize_verilog_code ("endmodule".toList)
      = Except.ok ("module\n".toList) ∧
    sanitize_verilog_code ("module\n".toList)
      = Except.error (sanitizePreamble ++ "module\n".toList) := by
  constructor <;> rfl

/-- Claim C5 (amended): the sanitizer is idempotent on already-clean
text — for every text with no fence delimiter that begins with the
`module` keyword and ends with the `endmodule` keyword, sanitizing
returns the same text with exactly a trailing newline appended — and
`sanitize (sanitize x) = sanitize x` holds for every `x` on which
sanitize succeeds *with the first `module` occurring at or before the
last `endmodule`* in the fence-stripped text (when the only `module`
occurrences lie inside the final `endmodule`, sanitize still succeeds
but on an overlapping slice whose re-sanitization fails). -/
theorem sanitize_idempotent_amended :
    (∀ x : List Char, containsTicks x = false → kModule <+: x →
      kEndmodule <:+ x →
      sanitize_verilog_code x = Except.ok (x ++ ['\n'])) ∧
    (∀ (x : List Char) (s e : Nat),
      findSub kModule (stripFences x) = some s →
      rfindSub kEndmodule (stripFences x) = some e → s ≤ e →
      ∃ y, sanitize_verilog_code x = Except.ok y ∧
        sanitize_verilog_code y = Except.ok y) :=
  ⟨sanitize_clean, fun x s e hf hr hse => sanitize_idem_of_ordered x hf hr hse⟩

/-- Witness for `sanitize_idempotent_amended`: a clean module text,
and a fenced generation output whose sanitized form is a fixed
point. -/
theorem sanitize_idempotent_amended_witness :
    sanitize_verilog_code ("module m; endmodule".toList)
      = Except.ok ("module m; endmodule".toList ++ ['\n']) ∧
    ∃ y, sanitize_verilog_code ("```verilog\nmodule x; endmodule\n```".toList)
        = Except.ok y ∧
      sanitize_verilog_code y = Except.ok y := by
  constructor
  · exact sanitize_idempotent_amended.1 "module m; endmodule".toList
      (by decide) (by decide) (by decide)
  · exact sanitize_idempotent_amended.2
      "```verilog\nmodule x; endmodule\n```".toList 0 10
      (by decide) (by decide) (by decide)

end TbAgent
